import Mathlib

/-!
Shallow embedding of the feature-selection notebook (`src/index.ipynb`).

The notebook is glue code around a statistics library: it loads a
diabetes table, standardizes the nine non-binary predictor columns,
expands them to degree-2 polynomial features, and compares several
feature-selection strategies (variance thresholding, univariate top-k
filtering, recursive feature elimination, L1 regression), printing R^2
and RMSE for each.  The library routines themselves are not part of the
repository, so they are modelled from the specification; the notebook's
own cells (the scaling/reattachment sequence, `run_model`, the sweep
loop) are translated directly.

Numbers are modelled as rationals.  The only non-rational operation in
the pipeline is the square root used by the scaler and by the RMSE
computation; it is abstracted as an explicit function parameter
`sq : ℚ → ℚ`, so every statement below holds for any square-root
implementation.
-/

namespace FeatSel

/-- A data matrix: a list of rows, each row a list of rationals. -/
abbrev Mat := List (List ℚ)

/-- Number of columns, read off the first row (all rows are assumed
rectangular by the library; the notebook only builds rectangular data). -/
def colCount (X : Mat) : ℕ := (X.headD []).length

/-- Column `j` of a matrix (missing entries read as 0). -/
def column (X : Mat) (j : ℕ) : List ℚ := X.map (fun r => r.getD j 0)

/-- Arithmetic mean of a list (0 for the empty list, as `0 / 0 = 0`). -/
def mean (l : List ℚ) : ℚ := l.sum / l.length

/-- Population variance, as computed by the library (`ddof = 0`). -/
def popVar (l : List ℚ) : ℚ := ((l.map (fun x => (x - mean l) ^ 2)).sum) / l.length

/-- Per-column means of a matrix. -/
def colMeans (X : Mat) : List ℚ := (List.range (colCount X)).map (fun j => mean (column X j))

/-- Per-column population variances of a matrix. -/
def colVars (X : Mat) : List ℚ := (List.range (colCount X)).map (fun j => popVar (column X j))

/-! ## StandardScaler

Modelled from the spec: the library scaler records per-column mean and
variance at fit time and transforms any matrix by subtracting the fitted
mean and dividing by the square root of the fitted variance. -/

/-- The state a fitted standard scaler owns: per-column mean and variance. -/
structure Scaler where
  mean : List ℚ
  var : List ℚ
  deriving Repr, DecidableEq

/-- Fit: compute per-column mean and variance of the given (training) data. -/
def Scaler.fit (X : Mat) : Scaler := ⟨colMeans X, colVars X⟩

/-- Transform one row with fitted parameters: `(x - mean) / sqrt var`,
with the square root abstracted as `sq`. -/
def scaleRow (sq : ℚ → ℚ) (s : Scaler) (r : List ℚ) : List ℚ :=
  List.zipWith (fun x mv => (x - mv.1) / sq mv.2) r (s.mean.zip s.var)

/-- Transform a matrix row-by-row with the fitted parameters. -/
def Scaler.transform (sq : ℚ → ℚ) (s : Scaler) (X : Mat) : Mat :=
  X.map (scaleRow sq s)

/-! ## PolynomialFeatures(degree=2, interaction_only=False, include_bias=False)

Modelled from the spec: fit records the number of input features; the
transform maps each row to all monomials of degree 1 and 2 (no bias
column): the `n` inputs themselves followed by all products
`x_i * x_j` with `i ≤ j`. -/

/-- The state a fitted polynomial expander owns: the input width. -/
structure Poly where
  nInput : ℕ
  deriving Repr, DecidableEq

/-- Fit: record the number of input columns of the training data. -/
def Poly.fit (X : Mat) : Poly := ⟨colCount X⟩

/-- All degree-2 products `x_i * x_j`, `i ≤ j`, of a row. -/
def degree2Terms (r : List ℚ) : List ℚ :=
  (r.tails.map (fun t =>
    match t with
    | [] => []
    | x :: rest => (x :: rest).map (fun y => x * y))).flatten

/-- Expand one row with the fitted basis: the `nInput` raw features
followed by all their pairwise products (squares included), no bias. -/
def polyRow (p : Poly) (r : List ℚ) : List ℚ :=
  let r' := r.take p.nInput
  r' ++ degree2Terms r'

/-- Transform a matrix row-by-row with the fitted basis. -/
def Poly.transform (p : Poly) (X : Mat) : Mat := X.map (polyRow p)

/-! ## VarianceThreshold

Modelled from the spec: retains only columns whose variance, computed on
the data it was fitted on, exceeds the threshold; the retained-column
indices are remembered and replayed on any matrix passed to transform. -/

/-- The state a fitted variance-threshold selector owns: the retained
column indices, in ascending order. -/
structure VT where
  support : List ℕ
  deriving Repr, DecidableEq

/-- Fit at threshold `t`: keep exactly the columns whose training
variance strictly exceeds `t`. -/
def VT.fit (t : ℚ) (X : Mat) : VT :=
  ⟨(List.range (colCount X)).filter (fun j => decide (t < popVar (column X j)))⟩

/-- Project one row onto a retained-column index list. -/
def selectCols (support : List ℕ) (r : List ℚ) : List ℚ :=
  support.map (fun j => r.getD j 0)

/-- Replay the retained-column mask on a matrix. -/
def VT.transform (v : VT) (X : Mat) : Mat := X.map (selectCols v.support)

/-- The notebook's threshold sweep grid: `np.linspace(0, 2, num=6)`. -/
def threshold_ranges : List ℚ := [0, 2/5, 4/5, 6/5, 8/5, 2]

/-! ## The notebook's preprocessing sequence

`index.ipynb` cell 3: fit the scaler on all training columns except the
last (the binary `female` column), transform train and test with it, and
reattach the untouched `female` column.  Cell 6: fit the degree-2
polynomial expansion on the transformed training matrix and replay it on
the transformed test matrix. -/

/-- Drop the last column of every row (`X.iloc[:, :-1]`). -/
def dropLastCol (X : Mat) : Mat := X.map List.dropLast

/-- Reattach the original last column (`female`) to transformed rows
(`X_transformed['female'] = X['female']`). -/
def attachFemale (T : Mat) (X : Mat) : Mat :=
  List.zipWith (fun t r => t ++ [r.getLastD 0]) T X

/-- Everything the preprocessing cells of the notebook produce. -/
structure NotebookState where
  scaler : Scaler
  XtrT : Mat
  XteT : Mat
  poly : Poly
  XpolyTr : Mat
  XpolyTe : Mat

/-- The notebook's preprocessing run, translated cell by cell:
`scaler.fit(X_train.iloc[:,:-1])`, both transforms, reattachment of
`female`, then `poly.fit_transform(X_train_transformed)` and
`poly.transform(X_test_transformed)`. -/
def notebookRun (sq : ℚ → ℚ) (Xtrain Xtest : Mat) : NotebookState :=
  let scaler := Scaler.fit (dropLastCol Xtrain)
  let XtrT := attachFemale (Scaler.transform sq scaler (dropLastCol Xtrain)) Xtrain
  let XteT := attachFemale (Scaler.transform sq scaler (dropLastCol Xtest)) Xtest
  let poly := Poly.fit XtrT
  ⟨scaler, XtrT, XteT, poly, Poly.transform poly XtrT, Poly.transform poly XteT⟩

/-- One iteration of the notebook's threshold sweep loop:
`selector = VarianceThreshold(t); selector.fit_transform(X_poly_train);
selector.transform(X_poly_test)`, returning the reduced train and test
matrices. -/
def sweepStep (t : ℚ) (st : NotebookState) : Mat × Mat :=
  let selector := VT.fit t st.XpolyTr
  (VT.transform selector st.XpolyTr, VT.transform selector st.XpolyTe)

/-! ## LinearRegression

Modelled from the spec: an ordinary linear regression fitted on a
feature matrix and target vector; it owns coefficient and intercept
values, is a deterministic function of its inputs, and fitting a matrix
with zero feature columns (or mismatched shapes) is a fatal precondition
violation, modelled as `none`.  The coefficients are obtained by solving
the normal equations of the intercept-augmented design matrix by
Gaussian elimination. -/

/-- Dot product of two coefficient lists. -/
def dotL (a b : List ℚ) : ℚ := (List.zipWith (· * ·) a b).sum

/-- Eliminate the leading unknown of row `r` using pivot row `piv`. -/
def elimRow (piv r : List ℚ) : List ℚ :=
  (List.zipWith (fun a p => a - r.headD 0 / piv.headD 0 * p) r piv).tail

/-- Gaussian elimination with back substitution on augmented rows
(`n` unknowns, each row `n + 1` wide); `none` on a singular system. -/
def solveAux : ℕ → List (List ℚ) → Option (List ℚ)
  | 0, _ => some []
  | n + 1, rows =>
    match rows.find? (fun r => decide (r.headD 0 ≠ 0)) with
    | none => none
    | some piv =>
      match solveAux n ((rows.erase piv).map (elimRow piv)) with
      | none => none
      | some xs =>
        some ((piv.tail.getLastD 0 - dotL piv.tail.dropLast xs) / piv.headD 0 :: xs)

/-- A fitted linear model: the values it owns after `fit`. -/
structure Model where
  intercept : ℚ
  coef : List ℚ
  deriving Repr, DecidableEq

/-- `LinearRegression().fit(X, y)`: reject empty or mismatched data,
otherwise solve the normal equations of the 1-augmented design. -/
def fitModel (X : Mat) (y : List ℚ) : Option Model :=
  if X.length = 0 ∨ colCount X = 0 ∨ X.length ≠ y.length then none
  else
    let X1 := X.map (fun r => 1 :: r)
    let m := colCount X1
    let A := (List.range m).map (fun i =>
      ((List.range m).map (fun j => dotL (column X1 i) (column X1 j))) ++
        [dotL (column X1 i) y])
    match solveAux m A with
    | none => none
    | some [] => none
    | some (b :: w) => some ⟨b, w⟩

/-- Model prediction on one row. -/
def Model.predictRow (m : Model) (r : List ℚ) : ℚ := m.intercept + dotL m.coef r

/-- Model prediction on a matrix (`model.predict(X)`). -/
def Model.predict (m : Model) (X : Mat) : List ℚ := X.map m.predictRow

/-- `model.score(X, y)`: coefficient of determination
`1 - SS_res / SS_tot`. -/
def r2Score (m : Model) (X : Mat) (y : List ℚ) : ℚ :=
  1 - ((List.zipWith (fun a b => (a - b) ^ 2) y (m.predict X)).sum) /
    ((y.map (fun v => (v - mean y) ^ 2)).sum)

/-- `metrics.mean_squared_error(y, y_pred)`. -/
def meanSquaredError (y yp : List ℚ) : ℚ :=
  ((List.zipWith (fun a b => (a - b) ^ 2) y yp).sum) / y.length

/-- The labels of the four metric lines `run_model` prints. -/
inductive MetricLabel where
  | trainingR2
  | trainingRMSE
  | testingR2
  | testingRMSE
  deriving Repr, DecidableEq

/-- The notebook's `run_model` helper, translated print-by-print: its
only effect is the output, modelled as the returned list of labelled
values (`np.sqrt` abstracted as `sq`). -/
def run_model (sq : ℚ → ℚ) (model : Model) (Xtr Xte : Mat) (ytr yte : List ℚ) :
    List (MetricLabel × ℚ) :=
  [(MetricLabel.trainingR2, r2Score model Xtr ytr),
   (MetricLabel.trainingRMSE, sq (meanSquaredError ytr (model.predict Xtr))),
   (MetricLabel.testingR2, r2Score model Xte yte),
   (MetricLabel.testingRMSE, sq (meanSquaredError yte (model.predict Xte)))]

/-! ## Recursive feature elimination (RFECV)

Modelled from the spec: iteratively fit the estimator on the retained
columns, rank features by fitted coefficient magnitude, drop the
weakest, repeat down to one feature; a failed fit leaves the retained
set unchanged. -/

/-- Index of the smallest entry (first occurrence) of a score list. -/
def weakestIdx (scores : List ℚ) : ℕ :=
  (scores.enum.foldl (fun best p => if p.2 < best.2 then p else best)
    (0, scores.headD 0)).1

/-- One elimination iteration: fit on the retained columns and drop the
feature with the weakest coefficient magnitude (keeping at least one). -/
def rfeStep (X : Mat) (y : List ℚ) (support : List ℕ) : List ℕ :=
  if support.length ≤ 1 then support
  else
    match fitModel (X.map (selectCols support)) y with
    | none => support
    | some m => support.eraseIdx (weakestIdx (m.coef.map (fun c => |c|)))

/-- The retained-column list after `n` elimination iterations, starting
from all columns. -/
def rfeIter (X : Mat) (y : List ℚ) : ℕ → List ℕ
  | 0 => List.range (colCount X)
  | n + 1 => rfeStep X y (rfeIter X y n)

/-! ## SelectKBest

Modelled from the spec: given per-column scores of the training
features, keep a fixed count of top-scoring columns (the library default
of 10 when unspecified) and replay exactly those column indices on any
matrix passed to transform.  Ties are broken deterministically towards
the higher column index, as the library's stable argsort does. -/

/-- The library's default `k` when none is passed. -/
def defaultK : ℕ := 10

/-- Ranking of column indices by score: `i` is ranked at least as high
as `j` when its score is larger, or equal with `i` the later column. -/
def scoreRank (scores : List ℚ) (i j : ℕ) : Prop :=
  scores.getD j 0 < scores.getD i 0 ∨ (scores.getD i 0 = scores.getD j 0 ∧ j ≤ i)

instance scoreRankDecidable (scores : List ℚ) : DecidableRel (scoreRank scores) :=
  fun i j => by unfold scoreRank; infer_instance

instance scoreRankTotal (scores : List ℚ) : IsTotal ℕ (scoreRank scores) where
  total i j := by
    unfold scoreRank
    rcases lt_trichotomy (scores.getD i 0) (scores.getD j 0) with h | h | h
    · exact Or.inr (Or.inl h)
    · rcases le_total j i with hj | hj
      · exact Or.inl (Or.inr ⟨h, hj⟩)
      · exact Or.inr (Or.inr ⟨h.symm, hj⟩)
    · exact Or.inl (Or.inl h)

instance scoreRankTrans (scores : List ℚ) : IsTrans ℕ (scoreRank scores) where
  trans a b c hab hbc := by
    unfold scoreRank at hab hbc ⊢
    rcases hab with h1 | ⟨e1, l1⟩ <;> rcases hbc with h2 | ⟨e2, l2⟩
    · exact Or.inl (lt_trans h2 h1)
    · exact Or.inl (lt_of_eq_of_lt e2.symm h1)
    · exact Or.inl (lt_of_lt_of_eq h2 e1.symm)
    · exact Or.inr ⟨e1.trans e2, le_trans l2 l1⟩

/-- The state a fitted univariate filter owns: the retained column
indices, in ascending order. -/
structure KBest where
  support : List ℕ
  deriving Repr, DecidableEq

/-- Fit with an explicit `k`: rank all column indices by score (ties to
the later column), keep the best `k`, and present them in ascending
column order. -/
def KBest.fit (k : ℕ) (scores : List ℚ) : KBest :=
  let ranked := (List.range scores.length).insertionSort (scoreRank scores)
  ⟨(ranked.take k).insertionSort (· ≤ ·)⟩

/-- Fit with `k` unspecified: the library default is used. -/
def KBest.fitDefault (scores : List ℚ) : KBest := KBest.fit defaultK scores

/-- Replay the retained-column indices on a matrix. -/
def KBest.transform (kb : KBest) (X : Mat) : Mat := X.map (selectCols kb.support)

/-! ## train_test_split(features, target, random_state=20, test_size=0.2)

Modelled from the spec: the split deterministically shuffles the row
indices with the fixed seed and takes the first `ceil(0.2 * n)` of the
shuffled order as the test partition and the rest as the training
partition.  The shuffle is modelled as a seed-indexed rotation of the
index list — a deterministic permutation, which is all the claims about
the split depend on. -/

/-- The library's test-partition size: `ceil(n / 5)`. -/
def testCount (n : ℕ) : ℕ := (n + 4) / 5

/-- Deterministic seeded split of `n` row indices into
(train, test). -/
def splitIndices (seed n : ℕ) : List ℕ × List ℕ :=
  let perm := (List.range n).rotate seed
  (perm.drop (testCount n), perm.take (testCount n))

/-- The notebook's call: `train_test_split(..., random_state=20,
test_size=0.2)` on `n` rows. -/
def notebook_split (n : ℕ) : List ℕ × List ℕ := splitIndices 20 n

/-! ## The 5-row sample table

The five rows displayed by `features.head()` in the notebook: columns
AGE, BMI, BP, S1–S6, female. -/

/-- The notebook's displayed 5-row, 10-column sample. -/
def sample5 : Mat :=
  [[59, 32.1, 101.0, 157, 93.2, 38.0, 4.0, 4.8598, 87, 1],
   [48, 21.6, 87.0, 183, 103.2, 70.0, 3.0, 3.8918, 69, 0],
   [72, 30.5, 93.0, 156, 93.6, 41.0, 4.0, 4.6728, 85, 1],
   [24, 25.3, 84.0, 198, 131.4, 40.0, 5.0, 4.8903, 89, 0],
   [50, 23.0, 101.0, 192, 125.4, 52.0, 4.0, 4.2905, 80, 0]]

end FeatSel

namespace FeatSel

/-- Helper: filtering with a stronger predicate yields a shorter list. -/
theorem length_filter_mono {α : Type} (l : List α) (p q : α → Bool)
    (h : ∀ a ∈ l, p a = true → q a = true) :
    (l.filter p).length ≤ (l.filter q).length := by
  induction l with
  | nil => simp
  | cons a l ih =>
    have ih2 := ih (fun a ha hpa => h a (List.mem_cons_of_mem _ ha) hpa)
    by_cases hpa : p a = true
    · have hqa : q a = true := h a (List.mem_cons_self a l) hpa
      simp [List.filter_cons, hpa, hqa]
      omega
    · have : p a = false := by simpa using hpa
      simp [List.filter_cons, this]
      by_cases hqa : q a = true
      · simp [hqa]; omega
      · have : q a = false := by simpa using hqa
        simp [this]; exact ih2

/-- C2: for thresholds `t1 < t2` drawn from the sweep grid, the
variance-threshold selector retains at most as many columns at `t2` as
at `t1`: the retained set shrinks monotonically in the threshold. -/
theorem vt_retained_antitone (X : Mat) (t1 t2 : ℚ)
    (h1 : t1 ∈ threshold_ranges) (h2 : t2 ∈ threshold_ranges) (hlt : t1 < t2) :
    ((VT.fit t2 X).support).length ≤ ((VT.fit t1 X).support).length := by
  unfold VT.fit
  apply length_filter_mono
  intro j _ hj
  simp only [decide_eq_true_eq] at hj ⊢
  exact lt_trans hlt hj

/-- Witness for C2 at a concrete input: thresholds `0 < 2` from the
grid, matrix with two columns of variances `1` and `0`. -/
theorem vt_retained_antitone_witness :
    ((0 : ℚ) ∈ threshold_ranges ∧ (2 : ℚ) ∈ threshold_ranges ∧ (0 : ℚ) < 2) ∧
    ((VT.fit 2 [[1, 5], [3, 5]]).support).length ≤
      ((VT.fit 0 [[1, 5], [3, 5]]).support).length :=
  ⟨⟨by simp [threshold_ranges], by simp [threshold_ranges], by norm_num⟩,
    vt_retained_antitone [[1, 5], [3, 5]] 0 2 (by simp [threshold_ranges])
      (by simp [threshold_ranges]) (by norm_num)⟩

/-- C1: every transformation applied to the test partition replays
parameters fitted on the training partition only.  The fitted scaler is
exactly the mean/variance of the training columns; the transformed test
matrix is the replay of those train-fitted parameters on the test rows;
the polynomial expansion of the test matrix replays the basis fitted on
the transformed training matrix; each sweep iteration replays on the
test matrix the column mask fitted on the training matrix; and none of
the fitted states (scaler, polynomial basis, variance mask) changes when
the test partition is replaced by any other matrix — fitting never reads
test data. -/
theorem test_transforms_replay_train_params (sq : ℚ → ℚ) (train test test2 : Mat) :
    (notebookRun sq train test).scaler = Scaler.fit (dropLastCol train)
    ∧ (notebookRun sq train test).XteT =
        attachFemale (Scaler.transform sq (Scaler.fit (dropLastCol train)) (dropLastCol test)) test
    ∧ (notebookRun sq train test).XpolyTe =
        Poly.transform (Poly.fit (notebookRun sq train test).XtrT) (notebookRun sq train test).XteT
    ∧ (∀ t, (sweepStep t (notebookRun sq train test)).2 =
        VT.transform (VT.fit t (notebookRun sq train test).XpolyTr)
          (notebookRun sq train test).XpolyTe)
    ∧ (notebookRun sq train test).scaler = (notebookRun sq train test2).scaler
    ∧ (notebookRun sq train test).poly = (notebookRun sq train test2).poly
    ∧ (∀ t, VT.fit t (notebookRun sq train test).XpolyTr =
        VT.fit t (notebookRun sq train test2).XpolyTr) :=
  ⟨rfl, rfl, rfl, fun _ => rfl, rfl, rfl, fun _ => rfl⟩

/-- Helper for C9: attaching the original last column to any list of
transformed rows leaves the last entry of each paired row equal to the
last entry of the original row. -/
theorem attachFemale_getLast :
    ∀ (T X : Mat), (∀ r ∈ X, r ≠ []) →
      ∀ p ∈ (attachFemale T X).zip X, p.1.getLast? = p.2.getLast? := by
  intro T X
  induction X generalizing T with
  | nil => intro _ p hp; simp [attachFemale] at hp
  | cons r X ih =>
    intro hne p hp
    cases T with
    | nil => simp [attachFemale] at hp
    | cons t T =>
      simp only [attachFemale, List.zipWith_cons_cons, List.zip_cons_cons,
        List.mem_cons] at hp
      rcases hp with hp | hp
      · subst hp
        have hr : r ≠ [] := hne r (List.mem_cons_self r X)
        have h1 : (t ++ [r.getLastD 0]).getLast? = some (r.getLastD 0) :=
          List.getLast?_concat _
        have h2 : r.getLast? = some (r.getLastD 0) := by
          rcases Option.isSome_iff_exists.mp (List.getLast?_isSome.mpr hr) with ⟨v, hv⟩
          rw [hv, List.getLastD_eq_getLast?, hv]
          rfl
        show (t ++ [r.getLastD 0]).getLast? = r.getLast?
        rw [h1, h2]
      · exact ih T (fun s hs => hne s (List.mem_cons_of_mem _ hs)) p hp

/-- C9: standardization leaves the binary `female` column unchanged —
the scaler is fitted and applied to all but the last column, and in both
the standardized train and test matrices every row's last (`female`)
entry equals the corresponding original row's last entry. -/
theorem female_column_unchanged (sq : ℚ → ℚ) (train test : Mat)
    (htr : ∀ r ∈ train, r ≠ []) (hte : ∀ r ∈ test, r ≠ []) :
    (∀ p ∈ ((notebookRun sq train test).XtrT).zip train, p.1.getLast? = p.2.getLast?)
    ∧ (∀ p ∈ ((notebookRun sq train test).XteT).zip test, p.1.getLast? = p.2.getLast?) :=
  ⟨attachFemale_getLast
      (Scaler.transform sq (Scaler.fit (dropLastCol train)) (dropLastCol train)) train htr,
    attachFemale_getLast
      (Scaler.transform sq (Scaler.fit (dropLastCol train)) (dropLastCol test)) test hte⟩

/-- Helper: for a nonempty target list, `1 - SS_res / SS_tot` equals
`1 - MSE / population variance` (both ratios scale by the row count). -/
theorem r2Score_eq_one_sub_mse_div_popVar (m : Model) (X : Mat) (y : List ℚ)
    (hy : y ≠ []) :
    r2Score m X y = 1 - meanSquaredError y (m.predict X) / popVar y := by
  unfold r2Score meanSquaredError popVar
  have h0 : y.length ≠ 0 := by simpa [List.length_eq_zero] using hy
  have hn : (y.length : ℚ) ≠ 0 := Nat.cast_ne_zero.mpr h0
  congr 1
  by_cases hc : ((y.map (fun v => (v - mean y) ^ 2)).sum) = 0
  · rw [hc]
    simp [hc]
  · field_simp

/-- C4: `run_model` reports exactly the coefficient of determination and
the root-mean-squared error (square root of the mean squared error
between targets and predictions), first on the training partition and
then on the testing partition; its entire effect is this output list. -/
theorem run_model_reports_r2_then_rmse (sq : ℚ → ℚ) (m : Model) (Xtr Xte : Mat)
    (ytr yte : List ℚ) (htr : ytr ≠ []) (hte : yte ≠ []) :
    run_model sq m Xtr Xte ytr yte =
      [(MetricLabel.trainingR2, 1 - meanSquaredError ytr (m.predict Xtr) / popVar ytr),
       (MetricLabel.trainingRMSE, sq (meanSquaredError ytr (m.predict Xtr))),
       (MetricLabel.testingR2, 1 - meanSquaredError yte (m.predict Xte) / popVar yte),
       (MetricLabel.testingRMSE, sq (meanSquaredError yte (m.predict Xte)))] := by
  unfold run_model
  rw [r2Score_eq_one_sub_mse_div_popVar m Xtr ytr htr,
    r2Score_eq_one_sub_mse_div_popVar m Xte yte hte]

/-- Witness for C4 at a concrete input: the identity square root, a
one-coefficient model, and one-row train/test partitions. -/
theorem run_model_reports_r2_then_rmse_witness :
    (([1] : List ℚ) ≠ [] ∧ ([2] : List ℚ) ≠ []) ∧
    run_model id ⟨0, [1]⟩ [[1]] [[2]] [1] [2] =
      [(MetricLabel.trainingR2,
          1 - meanSquaredError [1] (Model.predict ⟨0, [1]⟩ [[1]]) / popVar [1]),
       (MetricLabel.trainingRMSE,
          id (meanSquaredError [1] (Model.predict ⟨0, [1]⟩ [[1]]))),
       (MetricLabel.testingR2,
          1 - meanSquaredError [2] (Model.predict ⟨0, [1]⟩ [[2]]) / popVar [2]),
       (MetricLabel.testingRMSE,
          id (meanSquaredError [2] (Model.predict ⟨0, [1]⟩ [[2]])))] :=
  ⟨⟨by decide, by decide⟩,
    run_model_reports_r2_then_rmse id ⟨0, [1]⟩ [[1]] [[2]] [1] [2]
      (by decide) (by decide)⟩

/-- C5: a threshold at or above every training-column variance makes
the variance-threshold selector retain zero columns, and the subsequent
linear-regression fit on the resulting zero-column matrix fails
(`none`) rather than being guarded against. -/
theorem vt_saturating_threshold_empty_fit_fails (X : Mat) (y : List ℚ) (t : ℚ)
    (hX : X ≠ []) (hv : ∀ j < colCount X, popVar (column X j) ≤ t) :
    (VT.fit t X).support = []
    ∧ fitModel (VT.transform (VT.fit t X) X) y = none := by
  have hsupp : (VT.fit t X).support = [] := by
    unfold VT.fit
    apply List.filter_eq_nil_iff.mpr
    intro j hj
    simp only [decide_eq_true_eq, not_lt]
    exact hv j (List.mem_range.mp hj)
  refine ⟨hsupp, ?_⟩
  have htrans : VT.transform (VT.fit t X) X = X.map (fun _ => ([] : List ℚ)) := by
    show X.map (selectCols (VT.fit t X).support) = _
    rw [hsupp]
    rfl
  rw [htrans]
  obtain ⟨r, X2, rfl⟩ := List.exists_cons_of_ne_nil hX
  simp [fitModel, colCount]

/-- Witness for C5 at a concrete input: a one-column constant matrix
(variance 0) with threshold 0 retains nothing and the fit fails. -/
theorem vt_saturating_threshold_empty_fit_fails_witness :
    (([[1], [1]] : Mat) ≠ [] ∧
      (∀ j < colCount ([[1], [1]] : Mat), popVar (column [[1], [1]] j) ≤ (0 : ℚ))) ∧
    ((VT.fit 0 [[1], [1]]).support = []
      ∧ fitModel (VT.transform (VT.fit 0 [[1], [1]]) [[1], [1]]) [0, 0] = none) :=
  ⟨⟨by decide, by norm_num [colCount, popVar, column, mean]⟩,
    vt_saturating_threshold_empty_fit_fails [[1], [1]] [0, 0] 0 (by decide)
      (by norm_num [colCount, popVar, column, mean])⟩

/-- Helper: erasing an index never lengthens a list. -/
theorem length_eraseIdx_le {α : Type} : ∀ (l : List α) (i : ℕ),
    (l.eraseIdx i).length ≤ l.length
  | [], _ => le_refl _
  | _ :: l, 0 => Nat.le_succ _
  | a :: l, i + 1 => by
    simpa [List.eraseIdx] using Nat.succ_le_succ (length_eraseIdx_le l i)

/-- C6: during recursive feature elimination the number of retained
features never increases from one elimination iteration to the next. -/
theorem rfe_count_nonincreasing (X : Mat) (y : List ℚ) (n : ℕ) :
    (rfeIter X y (n + 1)).length ≤ (rfeIter X y n).length := by
  show (rfeStep X y (rfeIter X y n)).length ≤ (rfeIter X y n).length
  unfold rfeStep
  split
  · exact le_refl _
  · split
    · exact le_refl _
    · exact length_eraseIdx_le _ _

/-- C7: fitting the linear regression twice on identical inputs yields
identical results — in particular identical coefficient lists and
identical intercepts; the fit is a pure function of its inputs. -/
theorem linearRegression_fit_deterministic (X : Mat) (y : List ℚ) :
    fitModel X y = fitModel X y
    ∧ (fitModel X y).map Model.coef = (fitModel X y).map Model.coef
    ∧ (fitModel X y).map Model.intercept = (fitModel X y).map Model.intercept :=
  ⟨rfl, rfl, rfl⟩

/-- Witness for C9 at a concrete input: a 2-row train and 1-row test
table with one numeric column and the binary `female` column, square
root taken as the identity. -/
theorem female_column_unchanged_witness :
    ((∀ r ∈ ([[1, 0], [3, 1]] : Mat), r ≠ []) ∧ (∀ r ∈ ([[5, 1]] : Mat), r ≠ []))
    ∧ ((∀ p ∈ ((notebookRun id [[1, 0], [3, 1]] [[5, 1]]).XtrT).zip [[1, 0], [3, 1]],
          p.1.getLast? = p.2.getLast?)
      ∧ (∀ p ∈ ((notebookRun id [[1, 0], [3, 1]] [[5, 1]]).XteT).zip [[5, 1]],
          p.1.getLast? = p.2.getLast?)) :=
  ⟨⟨by decide, by decide⟩,
    female_column_unchanged id [[1, 0], [3, 1]] [[5, 1]] (by decide) (by decide)⟩

/-- C3: standardizing the notebook's 5-row, 10-column sample (scaling
the nine non-binary columns, reattaching `female`) and expanding it to
degree-2 polynomial features (all products, no bias) yields exactly 5
rows of exactly 65 columns each, for any square-root implementation. -/
theorem sample5_poly_expansion_shape (sq : ℚ → ℚ) :
    ((notebookRun sq sample5 sample5).XpolyTr).length = 5
    ∧ ((notebookRun sq sample5 sample5).XpolyTr).map List.length =
        [65, 65, 65, 65, 65] :=
  ⟨rfl, rfl⟩

/-- C8: with no column count specified, the univariate filter keeps
exactly the library default of 10 column indices of the training scores
(whenever at least 10 columns exist); the reduced test matrix consists
of exactly those same column indices of the test partition; and every
kept index ranks at least as high as every dropped index. -/
theorem selectKBest_default_keeps_ten (scores : List ℚ) (Xte : Mat)
    (h : 10 ≤ scores.length) :
    (KBest.fitDefault scores).support.length = 10
    ∧ KBest.transform (KBest.fitDefault scores) Xte =
        Xte.map (selectCols (KBest.fitDefault scores).support)
    ∧ ∀ i ∈ (KBest.fitDefault scores).support,
        ∀ j < scores.length, j ∉ (KBest.fitDefault scores).support →
          scoreRank scores i j := by
  set ranked := (List.range scores.length).insertionSort (scoreRank scores) with hranked
  have hsupp : (KBest.fitDefault scores).support =
      (ranked.take 10).insertionSort (· ≤ ·) := rfl
  have hlenranked : ranked.length = scores.length := by
    rw [hranked, List.length_insertionSort, List.length_range]
  refine ⟨?_, rfl, ?_⟩
  · rw [hsupp, List.length_insertionSort, List.length_take, hlenranked]
    omega
  · intro i hi j hj hj2
    have hmemi : i ∈ ranked.take 10 := by
      rw [hsupp, List.mem_insertionSort] at hi
      exact hi
    have hmemj : j ∈ ranked := by
      rw [hranked, List.mem_insertionSort, List.mem_range]
      exact hj
    have hj3 : j ∉ ranked.take 10 := by
      intro hcon
      exact hj2 (by rw [hsupp, List.mem_insertionSort]; exact hcon)
    have hjd : j ∈ ranked.drop 10 := by
      have hsplit : j ∈ ranked.take 10 ++ ranked.drop 10 := by
        rw [List.take_append_drop]
        exact hmemj
      rcases List.mem_append.mp hsplit with hc | hc
      · exact absurd hc hj3
      · exact hc
    have hsorted : List.Sorted (scoreRank scores) ranked :=
      List.sorted_insertionSort (scoreRank scores) (List.range scores.length)
    have hpair : List.Pairwise (scoreRank scores) (ranked.take 10 ++ ranked.drop 10) := by
      rw [List.take_append_drop]
      exact hsorted
    exact ((List.pairwise_append.mp hpair).2.2) i hmemi j hjd

/-- Witness for C8 at a concrete input: twelve scored columns and a
one-row test matrix. -/
theorem selectKBest_default_keeps_ten_witness :
    10 ≤ ([3, 1, 4, 1, 5, 9, 2, 6, 5, 3, 5, 8] : List ℚ).length
    ∧ ((KBest.fitDefault [3, 1, 4, 1, 5, 9, 2, 6, 5, 3, 5, 8]).support.length = 10
      ∧ KBest.transform (KBest.fitDefault [3, 1, 4, 1, 5, 9, 2, 6, 5, 3, 5, 8])
          [[0, 1, 2, 3, 4, 5, 6, 7, 8, 9, 10, 11]] =
        [[0, 1, 2, 3, 4, 5, 6, 7, 8, 9, 10, 11]].map
          (selectCols (KBest.fitDefault [3, 1, 4, 1, 5, 9, 2, 6, 5, 3, 5, 8]).support)
      ∧ ∀ i ∈ (KBest.fitDefault [3, 1, 4, 1, 5, 9, 2, 6, 5, 3, 5, 8]).support,
          ∀ j < ([3, 1, 4, 1, 5, 9, 2, 6, 5, 3, 5, 8] : List ℚ).length,
            j ∉ (KBest.fitDefault [3, 1, 4, 1, 5, 9, 2, 6, 5, 3, 5, 8]).support →
              scoreRank [3, 1, 4, 1, 5, 9, 2, 6, 5, 3, 5, 8] i j) :=
  ⟨by decide,
    selectKBest_default_keeps_ten [3, 1, 4, 1, 5, 9, 2, 6, 5, 3, 5, 8]
      [[0, 1, 2, 3, 4, 5, 6, 7, 8, 9, 10, 11]] (by decide)⟩

/-- C10: the modelled `train_test_split` with `test_size=0.2` and
`random_state=20` partitions the row indices: train and test are
disjoint, together they cover exactly the indices below `n`, the test
partition holds `ceil(n / 5)` of the rows, and repeating the call
yields the identical partition. -/
theorem train_test_split_partition (n : ℕ) :
    (∀ i ∈ (notebook_split n).1, i ∉ (notebook_split n).2)
    ∧ (∀ i, i < n ↔ (i ∈ (notebook_split n).1 ∨ i ∈ (notebook_split n).2))
    ∧ (notebook_split n).2.length = (n + 4) / 5
    ∧ notebook_split n = notebook_split n := by
  set perm := (List.range n).rotate 20 with hperm
  have hp : List.Perm perm (List.range n) := List.rotate_perm _ _
  have hnd : perm.Nodup := (List.nodup_rotate).mpr (List.nodup_range n)
  have hnd2 : (perm.take (testCount n) ++ perm.drop (testCount n)).Nodup := by
    rw [List.take_append_drop]
    exact hnd
  have hdisj := (List.nodup_append.mp hnd2).2.2
  refine ⟨?_, ?_, ?_, rfl⟩
  · intro i hi hcon
    exact hdisj hcon hi
  · intro i
    constructor
    · intro hi
      have hmem : i ∈ perm := hp.mem_iff.mpr (List.mem_range.mpr hi)
      have hsplit : i ∈ perm.take (testCount n) ++ perm.drop (testCount n) := by
        rw [List.take_append_drop]
        exact hmem
      rcases List.mem_append.mp hsplit with hc | hc
      · exact Or.inr hc
      · exact Or.inl hc
    · intro hi
      have hmem : i ∈ perm := by
        rcases hi with hc | hc
        · exact List.mem_of_mem_drop hc
        · exact List.mem_of_mem_take hc
      exact List.mem_range.mp (hp.mem_iff.mp hmem)
  · show (perm.take (testCount n)).length = (n + 4) / 5
    rw [List.length_take, hp.length_eq, List.length_range]
    unfold testCount
    omega
